import Mathlib

/-!
Verification of the SQL table-qualifier rewriter in `distribute.py`.

The development shallowly embeds the rewriter: the parsed SQL tree produced
by the external `sqlglot` parser is modelled by the inductive `Sql`, the
Python `random.Random` object by an explicit stream of draws (`Rng`), and
in-place mutation of the combo list by returning the post-call list.
Machine-level behaviour of the external parser and of file input/output is
out of scope; every function that the repository itself defines
(`load_mapping`, `rewrite_sql`, the inner closure producing a random
catalog/schema pair, the combo-pool construction in `main`) is translated
directly from the source.
-/

/-! ### Character and string helpers -/

/-- Model of the Python `str.lower` used at `distribute.py` lines 91 and 105,
restricted to ASCII as in the identifiers at hand. -/
def lowerChar (c : Char) : Char :=
  if 'A' ≤ c ∧ c ≤ 'Z' then Char.ofNat (c.toNat + 32) else c

/-- Lowercasing of a whole string, character by character. -/
def strLower (s : String) : String := ⟨s.data.map lowerChar⟩

/-- Split a character list at the first occurrence of a dot, as Python
`split(".", 1)` does.  Returns `none` when no dot occurs (in which case the
Python tuple unpacking at line 85 would raise). -/
def splitFirstAux : List Char → Option (List Char × List Char)
  | [] => none
  | c :: cs =>
    if c = '.' then some ([], cs)
    else
      match splitFirstAux cs with
      | none => none
      | some (a, b) => some (c :: a, b)

/-- Model of `catalog_schema.split(".", 1)` at `distribute.py` line 85:
the part before the first dot and the whole remainder. -/
def splitOnceDot (s : String) : Option (String × String) :=
  match splitFirstAux s.data with
  | none => none
  | some (a, b) => some (⟨a⟩, ⟨b⟩)

theorem string_mk_append (a b : List Char) :
    String.mk a ++ String.mk b = String.mk (a ++ b) := rfl

theorem string_append_assoc (a b c : String) :
    a ++ b ++ c = a ++ (b ++ c) := by
  cases a; cases b; cases c
  simp only [string_mk_append, List.append_assoc]

theorem splitFirstAux_sound :
    ∀ (cs a b : List Char), splitFirstAux cs = some (a, b) →
      cs = a ++ '.' :: b ∧ '.' ∉ a
  | [], a, b, h => by simp [splitFirstAux] at h
  | c :: cs, a, b, h => by
    by_cases hc : c = '.'
    · subst hc
      simp only [splitFirstAux, if_pos rfl, Option.some.injEq, Prod.mk.injEq] at h
      obtain ⟨rfl, rfl⟩ := h
      simp
    · simp only [splitFirstAux, if_neg hc] at h
      cases htl : splitFirstAux cs with
      | none => rw [htl] at h; simp at h
      | some p =>
        obtain ⟨a0, b0⟩ := p
        rw [htl] at h
        simp only [Option.some.injEq, Prod.mk.injEq] at h
        obtain ⟨rfl, rfl⟩ := h
        obtain ⟨h1, h2⟩ := splitFirstAux_sound cs a0 b0 htl
        constructor
        · simp [h1]
        · intro hmem
          rcases List.mem_cons.mp hmem with h | h
          · exact hc h.symm
          · exact h2 h

theorem splitFirstAux_isSome :
    ∀ (cs : List Char), '.' ∈ cs → (splitFirstAux cs).isSome
  | c :: cs, h => by
    by_cases hc : c = '.'
    · subst hc; simp [splitFirstAux]
    · have : '.' ∈ cs := by
        rcases List.mem_cons.mp h with h | h
        · exact absurd h.symm hc
        · exact h
      have ih := splitFirstAux_isSome cs this
      simp only [splitFirstAux, if_neg hc]
      cases htl : splitFirstAux cs with
      | none => rw [htl] at ih; simp at ih
      | some p => obtain ⟨a, b⟩ := p; simp

theorem splitOnceDot_sound {s c t : String} (h : splitOnceDot s = some (c, t)) :
    s = c ++ "." ++ t ∧ '.' ∉ c.data := by
  obtain ⟨cs⟩ := s
  unfold splitOnceDot at h
  cases haux : splitFirstAux cs with
  | none => rw [haux] at h; simp at h
  | some p =>
    obtain ⟨a, b⟩ := p
    rw [haux] at h
    simp only [Option.some.injEq, Prod.mk.injEq] at h
    obtain ⟨rfl, rfl⟩ := h
    obtain ⟨he, hna⟩ := splitFirstAux_sound cs a b haux
    refine ⟨?_, hna⟩
    rw [he]
    show String.mk (a ++ '.' :: b) = String.mk a ++ String.mk ['.'] ++ String.mk b
    rw [string_mk_append, string_mk_append]
    simp

theorem splitOnceDot_isSome {s : String} (h : '.' ∈ s.data) :
    (splitOnceDot s).isSome := by
  obtain ⟨cs⟩ := s
  have := splitFirstAux_isSome cs h
  unfold splitOnceDot
  cases haux : splitFirstAux cs with
  | none => rw [haux] at this; simp at this
  | some p => obtain ⟨a, b⟩ := p; simp

/-! ### Random stream

The Python code constructs `rng = random.Random()` inside `rewrite_sql`
(line 80): a Mersenne-Twister generator freshly seeded from operating-system
entropy at each call.  The model replaces the generator by the stream of
values it will produce; an exhausted stream keeps yielding zero. -/

structure Rng where
  stream : List Nat
deriving DecidableEq, Repr

def Rng.next : Rng → Nat × Rng
  | ⟨[]⟩ => (0, ⟨[]⟩)
  | ⟨v :: vs⟩ => (v, ⟨vs⟩)

def Rng.randbelow (r : Rng) (n : Nat) : Nat × Rng :=
  let (v, r') := r.next
  (v % n, r')

/-- Model of `rng.choice(seq)`: uniform pick of one element; `none` models the
IndexError that Python raises on an empty sequence. -/
def rngChoice (l : List String) (r : Rng) : Option (String × Rng) :=
  if l = [] then none
  else
    let (v, r') := r.next
    some (l.getD (v % l.length) "", r')

theorem rngChoice_mem {l : List String} {r : Rng} {e : String} {r' : Rng}
    (h : rngChoice l r = some (e, r')) : e ∈ l := by
  unfold rngChoice at h
  by_cases hl : l = []
  · rw [if_pos hl] at h; simp at h
  · rw [if_neg hl] at h
    simp only [Option.some.injEq, Prod.mk.injEq] at h
    obtain ⟨he, _⟩ := h
    have hlt : (r.next.1 % l.length) < l.length :=
      Nat.mod_lt _ (List.length_pos.mpr hl)
    rw [← he, List.getD_eq_getElem l "" hlt]
    exact List.getElem_mem hlt

/-! ### In-place shuffle

Model of `rng.shuffle(combos)` at `distribute.py` line 81: the CPython
Fisher-Yates loop `for i in reversed(range(1, len(x)))` with one draw below
`i + 1` per step, swapping positions `i` and `j`.  The list that the caller
holds after the call is the returned list. -/

def swapIdx (l : List String) (i j : Nat) : List String :=
  match l.get? i, l.get? j with
  | some a, some b => (l.set i b).set j a
  | _, _ => l

def shuffleGo : Nat → List String → Rng → List String × Rng
  | 0, l, r => (l, r)
  | i + 1, l, r =>
    let (j, r') := r.randbelow (i + 2)
    shuffleGo i (swapIdx l (i + 1) j) r'

def shuffle (l : List String) (r : Rng) : List String × Rng :=
  shuffleGo (l.length - 1) l r

theorem cons_set_perm {α : Type} :
    ∀ (t : List α) (m : Nat) (b x : α), t.get? m = some b →
      List.Perm (b :: t.set m x) (x :: t)
  | y :: s, 0, b, x, h => by
    simp only [List.get?_cons_zero, Option.some.injEq] at h
    subst h
    simpa using List.Perm.swap x y s
  | y :: s, m + 1, b, x, h => by
    simp only [List.get?_cons_succ] at h
    calc
      List.Perm (b :: y :: s.set m x) (y :: b :: s.set m x) := List.Perm.swap y b _
      List.Perm _ (y :: x :: s) := List.Perm.cons y (cons_set_perm s m b x h)
      List.Perm _ (x :: y :: s) := List.Perm.swap x y s

theorem set_swap_perm {α : Type} :
    ∀ (l : List α) (i j : Nat) (a b : α), l.get? i = some a → l.get? j = some b →
      List.Perm ((l.set i b).set j a) l
  | x :: t, 0, 0, a, b, ha, hb => by
    simp only [List.get?_cons_zero, Option.some.injEq] at ha hb
    subst ha; subst hb
    simp
  | x :: t, 0, j + 1, a, b, ha, hb => by
    simp only [List.get?_cons_zero, Option.some.injEq, List.get?_cons_succ] at ha hb
    subst ha
    simpa using cons_set_perm t j b x hb
  | x :: t, i + 1, 0, a, b, ha, hb => by
    simp only [List.get?_cons_zero, Option.some.injEq, List.get?_cons_succ] at ha hb
    subst hb
    simpa using cons_set_perm t i a x ha
  | x :: t, i + 1, j + 1, a, b, ha, hb => by
    simp only [List.get?_cons_succ] at ha hb
    simpa using List.Perm.cons x (set_swap_perm t i j a b ha hb)

theorem swapIdx_perm (l : List String) (i j : Nat) : List.Perm (swapIdx l i j) l := by
  unfold swapIdx
  split
  · next a b hi hj => exact set_swap_perm l i j a b hi hj
  · exact List.Perm.refl l

theorem shuffleGo_perm (n : Nat) (l : List String) (r : Rng) :
    List.Perm (shuffleGo n l r).1 l := by
  induction n generalizing l r with
  | zero => exact List.Perm.refl l
  | succ i ih =>
    unfold shuffleGo
    exact List.Perm.trans (ih _ _) (swapIdx_perm ..)

theorem shuffle_perm (l : List String) (r : Rng) : List.Perm (shuffle l r).1 l :=
  shuffleGo_perm _ _ _

/-! ### The parsed SQL tree

Shallow embedding of the sqlglot expression tree as the rewriter observes
it: `table` is an `exp.Table` node with its `catalog`, `db`, name and alias
arguments, `cte` is an `exp.CTE` node carrying the defined alias, and
`node` covers every other construct (SELECT, JOIN, subquery, ...), which the
rewriter only traverses. -/

structure TableArgs where
  name : String
  db : Option String := none
  catalog : Option String := none
  tblAlias : Option String := none
deriving DecidableEq, Repr

mutual
inductive Sql where
  | table (t : TableArgs)
  | cte (a : String) (cs : SqlList)
  | node (kind : String) (cs : SqlList)
inductive SqlList where
  | nil
  | cons (hd : Sql) (tl : SqlList)
end

mutual
/-- Model of the set comprehension at `distribute.py` lines 90 to 94: the
lowercased alias of every `exp.CTE` node anywhere in the statement, empty
aliases excluded. -/
def collectCtes : Sql → List String
  | .table _ => []
  | .cte a cs => (if a = "" then [] else [strLower a]) ++ collectCtesList cs
  | .node _ cs => collectCtesList cs
def collectCtesList : SqlList → List String
  | .nil => []
  | .cons x xs => collectCtes x ++ collectCtesList xs
end

mutual
/-- Every table node of the tree together with a flag telling whether its
direct parent is a CTE node, in traversal order. -/
def tablesOfCtx : Bool → Sql → List (Bool × TableArgs)
  | p, .table t => [(p, t)]
  | _, .cte _ cs => tablesOfCtxList true cs
  | _, .node _ cs => tablesOfCtxList false cs
def tablesOfCtxList : Bool → SqlList → List (Bool × TableArgs)
  | _, .nil => []
  | p, .cons x xs => tablesOfCtx p x ++ tablesOfCtxList p xs
end

def serializeAlias : Option String → String
  | none => ""
  | some a => " AS " ++ a

/-- Rendering of one table node by the sqlglot generator in the target
dialect: the catalog and db qualifiers, when present, are printed in front
of the name, separated by dots. -/
def serializeTable (t : TableArgs) : String :=
  (match t.catalog with | some c => c ++ "." | none => "") ++
    ((match t.db with | some d => d ++ "." | none => "") ++
      (t.name ++ serializeAlias t.tblAlias))

mutual
/-- Model of `stmt.sql(dialect="trino")` at `distribute.py` line 113.  Only
the features the claims mention are rendered faithfully (qualified table
references); every other node is rendered generically from its kind and
children. -/
def serializeExpr : Sql → String
  | .table t => serializeTable t
  | .cte a cs => a ++ " AS (" ++ serializeList cs ++ ")"
  | .node k cs => k ++ "(" ++ serializeList cs ++ ")"
def serializeList : SqlList → String
  | .nil => ""
  | .cons x .nil => serializeExpr x
  | .cons x (.cons y ys) => serializeExpr x ++ ", " ++ serializeList (.cons y ys)
end

/-- Model of the closure at `distribute.py` lines 83 to 86: pick one entry of
`combos` and split it on the first dot. -/
def random_prefix (combos : List String) (r : Rng) : Option ((String × String) × Rng) :=
  match rngChoice combos r with
  | none => none
  | some (e, r') =>
    match splitOnceDot e with
    | none => none
    | some cs => some (cs, r')

mutual
/-- Model of the loop at `distribute.py` lines 97 to 110 as a traversal: a
table node already carrying a `db` or `catalog` argument is left as-is, so
is a table node whose direct parent is a CTE node, so is one whose lowercased
name occurs in the collected CTE names; every other table node receives the
catalog and schema drawn by the random choice.  `none` models an uncaught
Python exception (empty pool or a pool entry without a dot). -/
def rewriteExpr (ctes combos : List String) : Bool → Sql → Rng → Option (Sql × Rng)
  | p, .table t, r =>
    if t.db.isSome || t.catalog.isSome then some (.table t, r)
    else if p then some (.table t, r)
    else if strLower t.name ∈ ctes then some (.table t, r)
    else
      match random_prefix combos r with
      | none => none
      | some ((c, s), r') =>
        some (.table { t with catalog := some c, db := some s }, r')
  | _, .cte a cs, r =>
    match rewriteChildren ctes combos true cs r with
    | none => none
    | some (cs', r') => some (.cte a cs', r')
  | _, .node k cs, r =>
    match rewriteChildren ctes combos false cs r with
    | none => none
    | some (cs', r') => some (.node k cs', r')
def rewriteChildren (ctes combos : List String) : Bool → SqlList → Rng → Option (SqlList × Rng)
  | _, .nil, r => some (.nil, r)
  | p, .cons x xs, r =>
    match rewriteExpr ctes combos p x r with
    | none => none
    | some (x', r') =>
      match rewriteChildren ctes combos p xs r' with
      | none => none
      | some (xs', r'') => some (.cons x' xs', r'')
end

/-- One iteration of the statement loop at `distribute.py` lines 88 to 110:
collect the CTE names of the statement, then rewrite its table nodes. -/
def rewriteStmt (combos : List String) (stmt : Sql) (r : Rng) : Option (Sql × Rng) :=
  rewriteExpr (collectCtes stmt) combos false stmt r

def rewriteStmts (combos : List String) : List Sql → Rng → Option (List Sql × Rng)
  | [], r => some ([], r)
  | s :: ss, r =>
    match rewriteStmt combos s r with
    | none => none
    | some (s', r') =>
      match rewriteStmts combos ss r' with
      | none => none
      | some (ss', r'') => some (s' :: ss', r'')

/-- Model of the join at `distribute.py` line 113. -/
def joinStmts : List String → String
  | [] => ""
  | [s] => s
  | s :: t :: rest => s ++ ";\n" ++ joinStmts (t :: rest)

structure RewriteResult where
  output : String
  combosAfter : List String
  warned : Bool
deriving DecidableEq, Repr

/-- Model of `rewrite_sql` at `distribute.py` lines 67 to 113.  The result of
the external `sqlglot.parse` call is passed in as `parsed` (`none` models a
ParseError).  Besides the returned string, the model records the state of the
caller-owned `combos` list after the call (the Python code shuffles it in
place) and whether the warning branch ran.  A `none` result models an
uncaught exception. -/
def rewrite_sql (sql : String) (parsed : Option (List Sql)) (combos : List String)
    (r : Rng) : Option RewriteResult :=
  match parsed with
  | none => some { output := sql, combosAfter := combos, warned := true }
  | some stmts =>
    match rewriteStmts (shuffle combos r).1 stmts (shuffle combos r).2 with
    | none => none
    | some (stmts', _) =>
      some { output := joinStmts (stmts'.map serializeExpr),
             combosAfter := (shuffle combos r).1, warned := false }

/-- Model of the per-file loop at `distribute.py` lines 158 to 171.  Each
entry pairs one file (its cleaned text together with the outcome of parsing
it) with the fresh entropy-seeded generator that `rng = random.Random()`
constructs inside that call of `rewrite_sql` (line 80).  The shared `combos`
list is threaded through because each call shuffles it in place; an uncaught
exception ends the run. -/
def processFiles : List ((String × Option (List Sql)) × Rng) → List String →
    List (Option RewriteResult)
  | [], _ => []
  | (f, r) :: rest, combos =>
    match rewrite_sql f.1 f.2 combos r with
    | none => [none]
    | some res => some res :: processFiles rest res.combosAfter

/-! ### Mapping resource and run configuration

Model of `load_mapping` (`distribute.py` lines 47 to 61) and of the
configuration stage of `main` (lines 149 to 152), over a JSON-like value
type.  Python iteration over a dict value succeeds on lists (its elements),
strings (its characters, one-character strings) and dicts (its keys), and
raises TypeError otherwise; every element is passed through `str`. -/

inductive JVal where
  | jnull
  | jbool (b : Bool)
  | jnum (n : Int)
  | jstr (s : String)
  | jarr (xs : List JVal)
  | jobj (kvs : List (String × JVal))

/-- Model of Python `str` on the values a mapping file can hold.  Containers
are rendered only approximately; no claim evaluates those cases. -/
def pyStr : JVal → String
  | .jnull => "None"
  | .jbool true => "True"
  | .jbool false => "False"
  | .jnum n => toString n
  | .jstr s => s
  | .jarr _ => "<list>"
  | .jobj _ => "<dict>"

/-- Model of Python iteration over a value: `none` models a TypeError. -/
def pyIter : JVal → Option (List JVal)
  | .jarr xs => some xs
  | .jstr s => some (s.data.map fun c => .jstr ⟨[c]⟩)
  | .jobj kvs => some (kvs.map fun kv => .jstr kv.1)
  | _ => none

inductive LoadResult where
  | configError
  | typeError
  | ok (m : List (String × List String))
deriving DecidableEq, Repr

def loadEntries : List (String × JVal) → Option (List (String × List String))
  | [] => some []
  | (k, v) :: rest =>
    match pyIter v with
    | none => none
    | some xs =>
      match loadEntries rest with
      | none => none
      | some m => some ((k, xs.map pyStr) :: m)

/-- Model of `load_mapping` at `distribute.py` lines 47 to 61: exit with the
configuration message when the root is not a dict, otherwise stringify each
key and each element of each value; a non-iterable value raises TypeError. -/
def load_mapping (data : JVal) : LoadResult :=
  match data with
  | .jobj kvs =>
    match loadEntries kvs with
    | none => .typeError
    | some m => .ok m
  | _ => .configError

/-- Model of the comprehension at `distribute.py` line 150. -/
def buildCombos (m : List (String × List String)) : List String :=
  m.flatMap fun p => p.2.map fun s => p.1 ++ "." ++ s

inductive ConfigOutcome where
  | abortConfig
  | abortCrash
  | proceed (combos : List String)
deriving DecidableEq, Repr

/-- Model of the configuration stage of `main` (`distribute.py` lines 149 to
152): load the mapping, build the combo pool, exit when the pool is empty.
All of this happens before the first input file is read. -/
def configure (data : JVal) : ConfigOutcome :=
  match load_mapping data with
  | .configError => .abortConfig
  | .typeError => .abortCrash
  | .ok m =>
    let combos := buildCombos m
    if combos = [] then .abortConfig else .proceed combos

/-- Model of a whole run of `main`: configuration first, then the per-file
loop; an aborted configuration processes no file. -/
def runAll (data : JVal) (files : List ((String × Option (List Sql)) × Rng)) :
    List (Option RewriteResult) :=
  match configure data with
  | .proceed combos => processFiles files combos
  | _ => []

/-! ### Relation between a table node and its rewritten form -/

theorem random_prefix_sound {combos : List String} {r : Rng} {c s : String} {r' : Rng}
    (h : random_prefix combos r = some ((c, s), r')) :
    ∃ e ∈ combos, splitOnceDot e = some (c, s) := by
  unfold random_prefix at h
  split at h
  · simp at h
  · rename_i e r2 heq
    split at h
    · simp at h
    · rename_i q hsp
      simp only [Option.some.injEq, Prod.mk.injEq] at h
      obtain ⟨h1, _⟩ := h
      exact ⟨e, rngChoice_mem heq, by rw [hsp, h1]⟩

/-- How one table node (paired with its parent-is-CTE flag) relates to its
rewritten form: the flag, the name and the alias are kept; a node that is
already qualified, sits directly under a CTE node, or has a collected CTE
name is untouched; any other node gets the two components of one pool entry
as catalog and db. -/
def TableRel (ctes combos : List String) (a b : Bool × TableArgs) : Prop :=
  b.1 = a.1 ∧ b.2.name = a.2.name ∧ b.2.tblAlias = a.2.tblAlias ∧
  ((a.2.db.isSome || a.2.catalog.isSome) = true → b.2 = a.2) ∧
  (a.1 = true → b.2 = a.2) ∧
  (strLower a.2.name ∈ ctes → b.2 = a.2) ∧
  (a.2.db = none → a.2.catalog = none → a.1 = false → strLower a.2.name ∉ ctes →
    ∃ e ∈ combos, ∃ c s, splitOnceDot e = some (c, s) ∧
      b.2 = { a.2 with catalog := some c, db := some s })

theorem forall2_append {α β : Type} {R : α → β → Prop} :
    ∀ {as bs : List α} {cs ds : List β}, List.Forall₂ R as cs → List.Forall₂ R bs ds →
      List.Forall₂ R (as ++ bs) (cs ++ ds) := by
  intro as bs cs ds h1 h2
  induction h1 with
  | nil => simpa using h2
  | cons h t ih => exact List.Forall₂.cons h ih

theorem tableRel_refl (ctes combos : List String) (p : Bool) (t : TableArgs)
    (hskip : (t.db.isSome || t.catalog.isSome) = true ∨ p = true ∨ strLower t.name ∈ ctes) :
    TableRel ctes combos (p, t) (p, t) := by
  refine ⟨rfl, rfl, rfl, fun _ => rfl, fun _ => rfl, fun _ => rfl, ?_⟩
  intro hdb hcat hp hmem
  rcases hskip with h | h | h
  · have hdb' : t.db = none := hdb
    have hcat' : t.catalog = none := hcat
    rw [hdb', hcat'] at h
    simp at h
  · have hp' : p = false := hp
    rw [h] at hp'
    exact Bool.noConfusion hp'
  · exact absurd h hmem

mutual
theorem rewriteExpr_rel (ctes combos : List String) :
    ∀ (p : Bool) (e : Sql) (r : Rng) (e' : Sql) (r' : Rng),
      rewriteExpr ctes combos p e r = some (e', r') →
      List.Forall₂ (TableRel ctes combos) (tablesOfCtx p e) (tablesOfCtx p e')
  | p, .table t, r, e', r', h => by
    simp only [rewriteExpr] at h
    by_cases h1 : (t.db.isSome || t.catalog.isSome) = true
    · rw [if_pos h1] at h
      simp only [Option.some.injEq, Prod.mk.injEq] at h
      obtain ⟨rfl, rfl⟩ := h
      exact List.Forall₂.cons (tableRel_refl ctes combos p t (Or.inl h1)) List.Forall₂.nil
    · rw [if_neg h1] at h
      by_cases h2 : p = true
      · rw [if_pos h2] at h
        simp only [Option.some.injEq, Prod.mk.injEq] at h
        obtain ⟨rfl, rfl⟩ := h
        exact List.Forall₂.cons (tableRel_refl ctes combos p t (Or.inr (Or.inl h2)))
          List.Forall₂.nil
      · rw [if_neg h2] at h
        by_cases h3 : strLower t.name ∈ ctes
        · rw [if_pos h3] at h
          simp only [Option.some.injEq, Prod.mk.injEq] at h
          obtain ⟨rfl, rfl⟩ := h
          exact List.Forall₂.cons (tableRel_refl ctes combos p t (Or.inr (Or.inr h3)))
            List.Forall₂.nil
        · rw [if_neg h3] at h
          cases hrp : random_prefix combos r with
          | none => rw [hrp] at h; simp at h
          | some q =>
            obtain ⟨⟨c, s⟩, r2⟩ := q
            rw [hrp] at h
            simp only [Option.some.injEq, Prod.mk.injEq] at h
            obtain ⟨rfl, rfl⟩ := h
            refine List.Forall₂.cons ?_ List.Forall₂.nil
            refine ⟨rfl, rfl, rfl, ?_, ?_, ?_, ?_⟩
            · intro hq; exact absurd hq h1
            · intro hp; exact absurd hp h2
            · intro hm; exact absurd hm h3
            · intro _ _ _ _
              obtain ⟨e, hmem, hsp⟩ := random_prefix_sound hrp
              exact ⟨e, hmem, c, s, hsp, rfl⟩
  | p, .cte a cs, r, e', r', h => by
    simp only [rewriteExpr] at h
    cases hrc : rewriteChildren ctes combos true cs r with
    | none => rw [hrc] at h; simp at h
    | some q =>
      obtain ⟨cs', r2⟩ := q
      rw [hrc] at h
      simp only [Option.some.injEq, Prod.mk.injEq] at h
      obtain ⟨rfl, rfl⟩ := h
      exact rewriteChildren_rel ctes combos true cs r cs' r2 hrc
  | p, .node k cs, r, e', r', h => by
    simp only [rewriteExpr] at h
    cases hrc : rewriteChildren ctes combos false cs r with
    | none => rw [hrc] at h; simp at h
    | some q =>
      obtain ⟨cs', r2⟩ := q
      rw [hrc] at h
      simp only [Option.some.injEq, Prod.mk.injEq] at h
      obtain ⟨rfl, rfl⟩ := h
      exact rewriteChildren_rel ctes combos false cs r cs' r2 hrc

theorem rewriteChildren_rel (ctes combos : List String) :
    ∀ (p : Bool) (cs : SqlList) (r : Rng) (cs' : SqlList) (r' : Rng),
      rewriteChildren ctes combos p cs r = some (cs', r') →
      List.Forall₂ (TableRel ctes combos) (tablesOfCtxList p cs) (tablesOfCtxList p cs')
  | p, .nil, r, cs', r', h => by
    simp only [rewriteChildren, Option.some.injEq, Prod.mk.injEq] at h
    obtain ⟨rfl, rfl⟩ := h
    exact List.Forall₂.nil
  | p, .cons x xs, r, cs', r', h => by
    simp only [rewriteChildren] at h
    split at h
    · simp at h
    · rename_i x' r2 hx
      split at h
      · simp at h
      · rename_i xs' r3 hxs
        simp only [Option.some.injEq, Prod.mk.injEq] at h
        obtain ⟨rfl, rfl⟩ := h
        exact forall2_append (rewriteExpr_rel ctes combos p x r x' r2 hx)
          (rewriteChildren_rel ctes combos p xs r2 xs' r3 hxs)
end

mutual
theorem rewriteExpr_noTables (ctes combos : List String) :
    ∀ (p : Bool) (e : Sql) (r : Rng), tablesOfCtx p e = [] →
      rewriteExpr ctes combos p e r = some (e, r)
  | p, .table t, r, h => by simp [tablesOfCtx] at h
  | p, .cte a cs, r, h => by
    have hcs : tablesOfCtxList true cs = [] := h
    simp [rewriteExpr, rewriteChildren_noTables ctes combos true cs r hcs]
  | p, .node k cs, r, h => by
    have hcs : tablesOfCtxList false cs = [] := h
    simp [rewriteExpr, rewriteChildren_noTables ctes combos false cs r hcs]

theorem rewriteChildren_noTables (ctes combos : List String) :
    ∀ (p : Bool) (cs : SqlList) (r : Rng), tablesOfCtxList p cs = [] →
      rewriteChildren ctes combos p cs r = some (cs, r)
  | p, .nil, r, _ => rfl
  | p, .cons x xs, r, h => by
    have h2 := List.append_eq_nil.mp h
    simp [rewriteChildren, rewriteExpr_noTables ctes combos p x r h2.1,
      rewriteChildren_noTables ctes combos p xs r h2.2]
end

/-! ### Statement-level corollaries and example inputs -/

theorem serializeTable_qualified (t : TableArgs) (c s : String) :
    serializeTable { t with catalog := some c, db := some s } =
      c ++ "." ++ s ++ "." ++ t.name ++ serializeAlias t.tblAlias := by
  show (c ++ ".") ++ ((s ++ ".") ++ (t.name ++ serializeAlias t.tblAlias)) = _
  simp only [string_append_assoc]

def exOrders : TableArgs := { name := "orders", tblAlias := some "o" }

def exCustomers : TableArgs := { name := "customers", tblAlias := some "c" }

def exStmt1 : Sql :=
  .node "select" (.cons (.table exOrders) (.cons (.table exCustomers) .nil))

def exStmt1Q : Sql :=
  .node "select"
    (.cons (.table ⟨"orders", some "db1", some "postgres1", some "o"⟩)
      (.cons (.table ⟨"customers", some "db2", some "postgres1", some "c"⟩) .nil))

def exCteStmt : Sql :=
  .node "with"
    (.cons (.cte "recent"
        (.cons (.node "select" (.cons (.table { name := "orders" }) .nil)) .nil))
      (.cons (.node "select" (.cons (.table { name := "recent" }) .nil)) .nil))

def exCteStmtQ : Sql :=
  .node "with"
    (.cons (.cte "recent"
        (.cons (.node "select"
            (.cons (.table ⟨"orders", some "db1", some "postgres1", none⟩) .nil)) .nil))
      (.cons (.node "select" (.cons (.table { name := "recent" }) .nil)) .nil))

def exQualStmt : Sql :=
  .node "select" (.cons (.table { name := "t", db := some "s0" }) .nil)

def exT1 : TableArgs := { name := "t1" }

def exT2 : TableArgs := { name := "t2" }

def exT3 : TableArgs := { name := "t3" }

def exSelNoTable : Sql := .node "select" .nil

def exSelTwoTables : Sql :=
  .node "select" (.cons (.table exT1) (.cons (.table exT2) .nil))

def exSelOneTable : Sql := .node "select" (.cons (.table exT3) .nil)

/-! ### The claims -/

/-- C1: for every statement that the rewrite completes, each table node that
carried no catalog and no db qualifier, does not sit directly under a CTE
node, and has no collected CTE name, ends up with its catalog and db set to
the two components of one entry of the combo pool, and its serialized form
reads catalog.schema.table (alias unchanged). -/
theorem c1_unqualified_gets_pool_pair (combos : List String) (stmt : Sql) (r : Rng)
    (stmt' : Sql) (r' : Rng) (h : rewriteStmt combos stmt r = some (stmt', r')) :
    List.Forall₂ (fun a b : Bool × TableArgs =>
      a.2.db = none → a.2.catalog = none → a.1 = false →
        strLower a.2.name ∉ collectCtes stmt →
        ∃ e ∈ combos, ∃ c s, splitOnceDot e = some (c, s) ∧
          b.2.catalog = some c ∧ b.2.db = some s ∧
          serializeTable b.2 = c ++ "." ++ s ++ "." ++ a.2.name ++ serializeAlias a.2.tblAlias)
      (tablesOfCtx false stmt) (tablesOfCtx false stmt') := by
  have hrel := rewriteExpr_rel (collectCtes stmt) combos false stmt r stmt' r' h
  refine List.Forall₂.imp ?_ hrel
  intro a b hab
  intro hdb hcat hp hmem
  obtain ⟨e, he, c, s, hsp, hb2⟩ := hab.2.2.2.2.2.2 hdb hcat hp hmem
  refine ⟨e, he, c, s, hsp, ?_, ?_, ?_⟩
  · rw [hb2]
  · rw [hb2]
  · rw [hb2]
    exact serializeTable_qualified a.2 c s

theorem c1_witness :
    List.Forall₂ (fun a b : Bool × TableArgs =>
      a.2.db = none → a.2.catalog = none → a.1 = false →
        strLower a.2.name ∉ collectCtes exStmt1 →
        ∃ e ∈ ["postgres1.db1", "postgres1.db2"], ∃ c s,
          splitOnceDot e = some (c, s) ∧ b.2.catalog = some c ∧ b.2.db = some s ∧
          serializeTable b.2 = c ++ "." ++ s ++ "." ++ a.2.name ++ serializeAlias a.2.tblAlias)
      (tablesOfCtx false exStmt1) (tablesOfCtx false exStmt1Q) :=
  c1_unqualified_gets_pool_pair ["postgres1.db1", "postgres1.db2"] exStmt1 ⟨[0, 1]⟩
    exStmt1Q ⟨[]⟩ (by rfl)

/-- C2: every name collected from a CTE definition of the statement exempts
every table node with that bare name (case-insensitively), the definition
site included: such a node is returned exactly unchanged. -/
theorem c2_cte_names_never_qualified (combos : List String) (stmt : Sql) (r : Rng)
    (stmt' : Sql) (r' : Rng) (h : rewriteStmt combos stmt r = some (stmt', r'))
    (n : String) (hn : n ∈ collectCtes stmt) :
    List.Forall₂ (fun a b : Bool × TableArgs => strLower a.2.name = n → b = a)
      (tablesOfCtx false stmt) (tablesOfCtx false stmt') := by
  have hrel := rewriteExpr_rel (collectCtes stmt) combos false stmt r stmt' r' h
  refine List.Forall₂.imp ?_ hrel
  intro a b hab hmatch
  have hmem : strLower a.2.name ∈ collectCtes stmt := by rw [hmatch]; exact hn
  exact Prod.ext hab.1 (hab.2.2.2.2.2.1 hmem)

theorem c2_witness :
    List.Forall₂ (fun a b : Bool × TableArgs => strLower a.2.name = "recent" → b = a)
      (tablesOfCtx false exCteStmt) (tablesOfCtx false exCteStmtQ) :=
  c2_cte_names_never_qualified ["postgres1.db1"] exCteStmt ⟨[0]⟩ exCteStmtQ ⟨[]⟩
    (by rfl) "recent" (by decide)

/-- C3: a table node that already carries a db or catalog qualifier is
returned exactly as it was, all attributes included. -/
theorem c3_already_qualified_untouched (combos : List String) (stmt : Sql) (r : Rng)
    (stmt' : Sql) (r' : Rng) (h : rewriteStmt combos stmt r = some (stmt', r')) :
    List.Forall₂ (fun a b : Bool × TableArgs =>
      (a.2.db.isSome || a.2.catalog.isSome) = true → b = a)
      (tablesOfCtx false stmt) (tablesOfCtx false stmt') := by
  have hrel := rewriteExpr_rel (collectCtes stmt) combos false stmt r stmt' r' h
  refine List.Forall₂.imp ?_ hrel
  intro a b hab hq
  exact Prod.ext hab.1 (hab.2.2.2.1 hq)

theorem c3_witness :
    List.Forall₂ (fun a b : Bool × TableArgs =>
      (a.2.db.isSome || a.2.catalog.isSome) = true → b = a)
      (tablesOfCtx false exQualStmt) (tablesOfCtx false exQualStmt) :=
  c3_already_qualified_untouched ["a.x"] exQualStmt ⟨[7]⟩ exQualStmt ⟨[7]⟩ (by rfl)

/-- C4: when parsing fails, `rewrite_sql` returns its input string unchanged
with the warning raised and the combos list untouched, and the per-file loop
carries on with the remaining files. -/
theorem c4_parse_error_passthrough (sql : String) (combos : List String) (r : Rng)
    (rest : List ((String × Option (List Sql)) × Rng)) :
    rewrite_sql sql none combos r =
      some { output := sql, combosAfter := combos, warned := true } ∧
    processFiles (((sql, none), r) :: rest) combos =
      some { output := sql, combosAfter := combos, warned := true } ::
        processFiles rest combos :=
  ⟨rfl, rfl⟩

/-- C5 counterexample: one concrete successful call after which the caller
holds the combos list in a different order than before the call. -/
theorem c5_counterexample :
    (rewrite_sql "SELECT 1" (some [exSelNoTable]) ["a.x", "b.y"] ⟨[0]⟩).map
        RewriteResult.combosAfter = some ["b.y", "a.x"] ∧
    (["b.y", "a.x"] : List String) ≠ ["a.x", "b.y"] :=
  ⟨rfl, by decide⟩

/-- C5 amended: a completed call leaves the combos list holding a permutation
of its previous elements (the in-place shuffle can reorder it but never adds,
removes or edits an entry); when parsing failed the list is exactly
unchanged. -/
theorem c5_pool_permuted (sql : String) (parsed : Option (List Sql)) (combos : List String)
    (r : Rng) (res : RewriteResult) (h : rewrite_sql sql parsed combos r = some res) :
    List.Perm res.combosAfter combos ∧ (parsed = none → res.combosAfter = combos) := by
  cases parsed with
  | none =>
    simp only [rewrite_sql, Option.some.injEq] at h
    subst h
    exact ⟨List.Perm.refl _, fun _ => rfl⟩
  | some stmts =>
    simp only [rewrite_sql] at h
    split at h
    · simp at h
    · rename_i stmts' r2 heq
      simp only [Option.some.injEq] at h
      subst h
      exact ⟨shuffle_perm combos r, fun habs => Option.noConfusion habs⟩

theorem c5_witness :
    List.Perm (["b.y", "a.x"] : List String) ["a.x", "b.y"] :=
  (c5_pool_permuted "SELECT 1" (some [exSelNoTable]) ["a.x", "b.y"] ⟨[0]⟩
    { output := "select()", combosAfter := ["b.y", "a.x"], warned := false } (by rfl)).1

/-- C6: each call of `rewrite_sql` constructs its own freshly seeded
generator, so the draws of the second file are identical whether the first
file drew zero or two qualifiers: processing the same second file with the
same fresh generator yields the same output in both runs.  The counts in the
last two conjuncts show that the two first files draw different numbers of
qualifiers. -/
theorem c6_fresh_generator_per_file :
    (processFiles [(("f1", some [exSelNoTable]), ⟨[0, 1, 0]⟩),
        (("f2", some [exSelOneTable]), ⟨[1, 0]⟩)] ["a.x", "b.y"]).getD 1 none =
      some { output := "select(b.y.t3)", combosAfter := ["b.y", "a.x"], warned := false } ∧
    (processFiles [(("f1", some [exSelTwoTables]), ⟨[0, 1, 0]⟩),
        (("f2", some [exSelOneTable]), ⟨[1, 0]⟩)] ["a.x", "b.y"]).getD 1 none =
      some { output := "select(b.y.t3)", combosAfter := ["b.y", "a.x"], warned := false } ∧
    (tablesOfCtx false exSelNoTable).length = 0 ∧
    (tablesOfCtx false exSelTwoTables).length = 2 :=
  ⟨rfl, rfl, rfl, rfl⟩

/-- C7 counterexample: a mapping whose root is a dict of strings is not an
object-of-arrays, yet the run does not abort: the string value is iterated
character by character and a file is processed. -/
theorem c7_counterexample :
    configure (JVal.jobj [("a", JVal.jstr "xy")]) = ConfigOutcome.proceed ["a.x", "a.y"] ∧
    runAll (JVal.jobj [("a", JVal.jstr "xy")]) [(("f", none), ⟨[]⟩)] =
      [some { output := "f", combosAfter := ["a.x", "a.y"], warned := true }] :=
  ⟨rfl, rfl⟩

/-- C7 amended: the run aborts with the configuration error before any file
is processed when the root of the mapping is not an object at all, and when
the loaded mapping yields an empty combo pool; an object with non-array
values is not itself rejected. -/
theorem c7_config_abort (data : JVal) (files : List ((String × Option (List Sql)) × Rng)) :
    ((∀ kvs, data ≠ JVal.jobj kvs) →
      configure data = ConfigOutcome.abortConfig ∧ runAll data files = []) ∧
    (∀ m, load_mapping data = LoadResult.ok m → buildCombos m = [] →
      configure data = ConfigOutcome.abortConfig ∧ runAll data files = []) := by
  have habort : configure data = ConfigOutcome.abortConfig → runAll data files = [] := by
    intro hcfg
    unfold runAll
    rw [hcfg]
  constructor
  · intro hno
    have hcfg : configure data = ConfigOutcome.abortConfig := by
      unfold configure
      cases data with
      | jobj kvs => exact absurd rfl (hno kvs)
      | jnull => rfl
      | jbool b => rfl
      | jnum n => rfl
      | jstr s => rfl
      | jarr xs => rfl
    exact ⟨hcfg, habort hcfg⟩
  · intro m hm hempty
    have hcfg : configure data = ConfigOutcome.abortConfig := by
      unfold configure
      rw [hm]
      simp [hempty]
    exact ⟨hcfg, habort hcfg⟩

theorem c7_witness :
    (configure (JVal.jarr []) = ConfigOutcome.abortConfig ∧
      runAll (JVal.jarr []) [(("f", none), ⟨[]⟩)] = []) ∧
    (configure (JVal.jobj [("a", JVal.jarr [])]) = ConfigOutcome.abortConfig ∧
      runAll (JVal.jobj [("a", JVal.jarr [])]) [(("f", none), ⟨[]⟩)] = []) :=
  ⟨(c7_config_abort (JVal.jarr []) [(("f", none), ⟨[]⟩)]).1
      (fun kvs h => JVal.noConfusion h),
    (c7_config_abort (JVal.jobj [("a", JVal.jarr [])]) [(("f", none), ⟨[]⟩)]).2
      [("a", [])] (by rfl) (by rfl)⟩

/-- C8: a statement without table nodes is returned by the rewrite exactly
as parsed with no draw consumed, and the output of `rewrite_sql` for a file
holding only that statement is its plain serialization. -/
theorem c8_tableless_statement_noop (sql : String) (stmt : Sql) (combos : List String)
    (r : Rng) (h : tablesOfCtx false stmt = []) :
    rewriteStmt combos stmt r = some (stmt, r) ∧
    ∀ res, rewrite_sql sql (some [stmt]) combos r = some res →
      res.output = serializeExpr stmt := by
  have hrw : ∀ (cs : List String) (r0 : Rng), rewriteStmt cs stmt r0 = some (stmt, r0) :=
    fun cs r0 => rewriteExpr_noTables (collectCtes stmt) cs false stmt r0 h
  refine ⟨hrw combos r, ?_⟩
  intro res hres
  have h1 : rewriteStmts (shuffle combos r).1 [stmt] (shuffle combos r).2 =
      some ([stmt], (shuffle combos r).2) := by
    simp [rewriteStmts, hrw]
  simp only [rewrite_sql] at hres
  rw [h1] at hres
  simp only [Option.some.injEq] at hres
  rw [← hres]
  rfl

theorem c8_witness :
    rewriteStmt ["a.x"] exSelNoTable ⟨[5]⟩ = some (exSelNoTable, ⟨[5]⟩) :=
  (c8_tableless_statement_noop "SELECT 1" exSelNoTable ["a.x"] ⟨[5]⟩ (by rfl)).1

/-- C9: after a successful load the configuration stage aborts exactly when
the built pool is empty, the pool is empty exactly when every catalog has an
empty schema list, and a non-empty pool is handed on unchanged. -/
theorem c9_pool_emptiness_exact (data : JVal) (m : List (String × List String))
    (hm : load_mapping data = LoadResult.ok m) :
    (configure data = ConfigOutcome.abortConfig ↔ buildCombos m = []) ∧
    (buildCombos m = [] ↔ ∀ p ∈ m, p.2 = []) ∧
    (buildCombos m ≠ [] → configure data = ConfigOutcome.proceed (buildCombos m)) := by
  have hc : configure data =
      (if buildCombos m = [] then ConfigOutcome.abortConfig
        else ConfigOutcome.proceed (buildCombos m)) := by
    unfold configure
    rw [hm]
  refine ⟨⟨?_, ?_⟩, ?_, ?_⟩
  · intro h
    by_contra hne
    rw [hc, if_neg hne] at h
    exact ConfigOutcome.noConfusion h
  · intro h
    rw [hc, if_pos h]
  · simp only [buildCombos, List.flatMap_eq_nil_iff, List.map_eq_nil_iff]
  · intro h
    rw [hc, if_neg h]

theorem c9_witness :
    configure (JVal.jobj [("a", JVal.jarr [JVal.jstr "x"])]) =
      ConfigOutcome.proceed ["a.x"] :=
  (c9_pool_emptiness_exact (JVal.jobj [("a", JVal.jarr [JVal.jstr "x"])])
    [("a", ["x"])] (by rfl)).2.2 (by decide)

/-- C10: the drawn pool entry is split on its first dot only: the catalog is
the part before the first dot and the schema is the whole remainder, which
may contain further dots; on any entry containing a dot the split succeeds,
and empty parts are accepted as the three closing examples show. -/
theorem c10_split_first_dot_only :
    (∀ (combos : List String) (r : Rng) (e : String) (r2 : Rng),
        rngChoice combos r = some (e, r2) → '.' ∈ e.data →
        ∃ c s, random_prefix combos r = some ((c, s), r2) ∧
          e = c ++ "." ++ s ∧ '.' ∉ c.data) ∧
    splitOnceDot ".x" = some ("", "x") ∧
    splitOnceDot "a." = some ("a", "") ∧
    splitOnceDot "a.b.c" = some ("a", "b.c") := by
  refine ⟨?_, by decide, by decide, by decide⟩
  intro combos r e r2 hch hdot
  have hs := splitOnceDot_isSome hdot
  cases hsp : splitOnceDot e with
  | none => rw [hsp] at hs; simp at hs
  | some q =>
    obtain ⟨c, s⟩ := q
    obtain ⟨heq, hnot⟩ := splitOnceDot_sound hsp
    exact ⟨c, s, by simp [ random_prefix, hch, hsp], heq, hnot⟩

theorem c10_witness :
    ∃ c s, random_prefix ["a.b.c"] ⟨[0]⟩ = some ((c, s), (⟨[]⟩ : Rng)) ∧
      "a.b.c" = c ++ "." ++ s ∧ '.' ∉ c.data :=
  c10_split_first_dot_only.1 ["a.b.c"] ⟨[0]⟩ "a.b.c" ⟨[]⟩ (by rfl) (by decide)
